import Mathlib

/-!
Verification of the FIFO auto-booking core of barnechea-driver.

The definitions below are a shallow embedding of `src/booking.py`
(`_normalize_rut`, `block_slot`, `generate_reservation`, `remove_block`,
`book_appointment`, `autobook_fifo`), of the local re-sort step of
`get_active_users` in `src/kapso_notifier.py` (together with its
`_parse_iso_datetime` helper), and of the exit-code behaviour of `main` in
`src/check_lobarnechea.py` with `EXIT_AVAILABILITY_HANDLED` from
`src/config.py`.

The remote Saltala gateway is modelled as an oracle deciding which POST
requests succeed (`saltala_api.post` wraps every transport or HTTP failure
in `SaltalaAPIError`, which the booking layer catches and turns into a
boolean failure).  Each booking-layer function additionally returns the
list of gateway calls it issued, with the payloads the source builds.
-/

namespace Barnechea

/-- A queued user record as the booking layer reads it (`user.get` of a
missing key yields the empty string for the required fields and `None` for
the optional ones; Python truthiness of a string is non-emptiness). -/
structure User where
  id : String
  rut : String
  first_name : String
  last_name : String
  email : Option String
  phone : Option String
  deriving DecidableEq

/-- One `fieldId`/`value` entry of the reservation payload built by
`generate_reservation`. -/
structure Field where
  fieldId : String
  value : String
  deriving DecidableEq

/-- A gateway POST issued by the booking layer, with the payload the source
builds: `block` and `release` carry `lineId`, the combined date-time string
and the optional `patientRut` entry; `reserve` carries the reservation
field list. -/
inductive Call where
  | block (lineId : Int) (datetime : String) (patientRut : Option String)
  | reserve (lineId : Int) (datetime : String) (fields : List Field)
  | release (lineId : Int) (datetime : String) (patientRut : Option String)
  deriving DecidableEq

/-- The remote Saltala gateway, as a pure oracle deciding whether each POST
succeeds (`false` stands for `post` raising `SaltalaAPIError`). -/
structure Oracle where
  blockOk : Int → String → Option String → Bool
  reserveOk : Int → String → List Field → Bool
  releaseOk : Int → String → Option String → Bool

/-- `_normalize_rut`: keep only the digit characters of the rut
(`re.sub(r"\D", "", rut)`; the empty string maps to itself). -/
def _normalize_rut (rut : String) : String :=
  String.mk (rut.toList.filter fun c => c.isDigit)

/-- The optional `patientRut` entry of a block/release payload: present iff
the normalized rut is non-empty (`if normalized_rut: payload["patientRut"] = ...`). -/
def rutTag (patient_rut : String) : Option String :=
  if _normalize_rut patient_rut = "" then none else some (_normalize_rut patient_rut)

/-- `block_slot`: one `addReservationTemporalBlock` POST with payload
`{lineId, date: f"{date}T{time}:00", patientRut?}`; returns the gateway
verdict and the call issued. -/
def block_slot (o : Oracle) (line_id : Int) (date time patient_rut : String) :
    Bool × List Call :=
  let dt := date ++ "T" ++ time ++ ":00"
  let pr := rutTag patient_rut
  (o.blockOk line_id dt pr, [Call.block line_id dt pr])

/-- The `fields` list of the reservation payload: rut, first and last name
as given (note: the rut is NOT normalized here), with email/phone entries
appended only when present and truthy. -/
def reservationFields (rut first last : String) (email phone : Option String) :
    List Field :=
  [⟨"rut", rut⟩, ⟨"nombres", first⟩, ⟨"apellidos", last⟩]
    ++ (match email with
        | some e => if e = "" then [] else [⟨"correo", e⟩]
        | none => [])
    ++ (match phone with
        | some p => if p = "" then [] else [⟨"telefono", p⟩]
        | none => [])

/-- `generate_reservation`: one `generateReservation` POST carrying the
reservation payload; returns the gateway verdict and the call issued. -/
def generate_reservation (o : Oracle) (line_id : Int) (date time rut first last : String)
    (email phone : Option String) : Bool × List Call :=
  let dt := date ++ "T" ++ time ++ ":00"
  let fs := reservationFields rut first last email phone
  (o.reserveOk line_id dt fs, [Call.reserve line_id dt fs])

/-- `remove_block`: one `removeReservationTemporalBlock` POST; the source
swallows any `SaltalaAPIError` (logging only), so the gateway verdict is
consulted and discarded. -/
def remove_block (o : Oracle) (line_id : Int) (date time patient_rut : String) :
    List Call :=
  let dt := date ++ "T" ++ time ++ ":00"
  let pr := rutTag patient_rut
  let _ := o.releaseOk line_id dt pr
  [Call.release line_id dt pr]

/-- `book_appointment`: eligibility guard, then `block_slot`, then
`generate_reservation`, with a compensating `remove_block` when the reserve
step fails.  Returns the outcome and the gateway calls issued, in order. -/
def book_appointment (o : Oracle) (line_id : Int) (date time rut first last : String)
    (email phone : Option String) : Bool × List Call :=
  if rut = "" ∨ first = "" ∨ last = "" then (false, [])
  else
    let b := block_slot o line_id date time rut
    if b.1 = false then (false, b.2)
    else
      let r := generate_reservation o line_id date time rut first last email phone
      if r.1 = true then (true, b.2 ++ r.2)
      else (false, b.2 ++ r.2 ++ remove_block o line_id date time rut)

/-- The allocator's per-user eligibility check:
`user.get("rut") and user.get("first_name") and user.get("last_name")`. -/
def eligible (u : User) : Bool :=
  !(u.rut == "") && !(u.first_name == "") && !(u.last_name == "")

/-- The inner loop of `autobook_fifo` (`for t in list(remaining_times)`):
walk the snapshot of the remaining times and return the first time whose
`book_appointment` succeeds, together with all gateway calls issued along
the way. -/
def attemptTimes (o : Oracle) (line_id : Int) (day : String) (u : User) :
    List String → Option String × List Call
  | [] => (none, [])
  | t :: ts =>
    let r := book_appointment o line_id day t u.rut u.first_name u.last_name u.email u.phone
    if r.1 then (some t, r.2)
    else
      let rest := attemptTimes o line_id day u ts
      (rest.1, r.2 ++ rest.2)

/-- The outer loop of `autobook_fifo`, with the booked `(user, time)` pairs
made explicit (the source appends `user` to `booked` and removes the
consumed time from `remaining_times` in the same success branch).  Returns
the committed pairs in booking order, the remaining times, and the gateway
calls issued.  The directory/notifier side effects on success
(`update_user_status`, `send_template_message`) do not touch the lists and
are not modelled. -/
def autobookLoop (o : Oracle) (line_id : Int) (day : String) :
    List User → List String → List (User × String) × List String × List Call
  | [], remaining => ([], remaining, [])
  | u :: rest, remaining =>
    if remaining = [] then ([], remaining, [])
    else if eligible u = false then autobookLoop o line_id day rest remaining
    else
      let a := attemptTimes o line_id day u remaining
      match a.1 with
      | none =>
        let r := autobookLoop o line_id day rest remaining
        (r.1, r.2.1, a.2 ++ r.2.2)
      | some t =>
        let r := autobookLoop o line_id day rest (remaining.erase t)
        ((u, t) :: r.1, r.2.1, a.2 ++ r.2.2)

/-- `autobook_fifo`: the committed bookings as the source returns them (the
booked users in booking order); the early returns for an empty time list or
an empty user list mirror the source. -/
def autobook_fifo (o : Oracle) (line_id : Int) (day : String)
    (times : List String) (autobook_users : List User) : List User :=
  if times = [] then []
  else if autobook_users = [] then []
  else ((autobookLoop o line_id day autobook_users times).1).map Prod.fst

/-- A gateway on which every call succeeds. -/
def oracleAll : Oracle :=
  ⟨fun _ _ _ => true, fun _ _ _ => true, fun _ _ _ => true⟩

/-- A gateway on which every call fails. -/
def oracleNone : Oracle :=
  ⟨fun _ _ _ => false, fun _ _ _ => false, fun _ _ _ => false⟩

/-- A gateway that blocks but never reserves; releases fail. -/
def oracleNoReserve : Oracle :=
  ⟨fun _ _ _ => true, fun _ _ _ => false, fun _ _ _ => false⟩

/-- A gateway that blocks but never reserves; releases succeed. -/
def oracleNoReserveB : Oracle :=
  ⟨fun _ _ _ => true, fun _ _ _ => false, fun _ _ _ => true⟩

/-- Sample eligible user. -/
def uAna : User := ⟨"u1", "11111111", "Ana", "Diaz", none, none⟩

/-- Sample eligible user. -/
def uBen : User := ⟨"u2", "22222222", "Ben", "Soto", none, none⟩

/-- Sample ineligible user (missing last name). -/
def uNoLast : User := ⟨"u3", "33333333", "Cora", "", none, none⟩

/-- Sample eligible user sharing `uAna`'s identifier. -/
def uAnaTwin : User := ⟨"u1", "99999999", "Ana", "Perez", none, some "56911111111"⟩

/-! ### Store model for the aliasing claim

`times` and `remaining_times` are mutable Python list objects.  To state
that `autobook_fifo` never mutates the caller's list, the lists live in a
store of list-valued cells addressed by `Nat` references: `list(times)`
allocates a fresh cell holding a copy, and `remaining_times.remove(t)`
updates only that cell. -/

/-- A store of list-valued objects: `cells` maps each reference to its
current contents, `next` is the next fresh reference (every allocated
reference is `< next`). -/
structure Heap where
  cells : Nat → List String
  next : Nat

/-- `list(xs)`: allocate a fresh list object holding a copy of the contents
of the object at `r`. -/
def Heap.allocCopy (h : Heap) (r : Nat) : Nat × Heap :=
  (h.next, ⟨fun i => if i = h.next then h.cells r else h.cells i, h.next + 1⟩)

/-- `lst.remove(t)` on the list object at `r` (removes the first occurrence). -/
def Heap.removeAt (h : Heap) (r : Nat) (t : String) : Heap :=
  ⟨fun i => if i = r then (h.cells r).erase t else h.cells i, h.next⟩

/-- The outer loop of `autobook_fifo` acting on the mutable
`remaining_times` object at reference `rref` (the inner loop iterates over
the snapshot `list(remaining_times)`, i.e. the cell's current value). -/
def autobookLoopHeap (o : Oracle) (line_id : Int) (day : String) :
    List User → Heap → Nat → List User × Heap
  | [], h, _ => ([], h)
  | u :: rest, h, rref =>
    if h.cells rref = [] then ([], h)
    else if eligible u = false then autobookLoopHeap o line_id day rest h rref
    else
      match (attemptTimes o line_id day u (h.cells rref)).1 with
      | none => autobookLoopHeap o line_id day rest h rref
      | some t =>
        let r := autobookLoopHeap o line_id day rest (h.removeAt rref t) rref
        (u :: r.1, r.2)

/-- `autobook_fifo` against the store: the caller's `times` object lives at
reference `tref`; `remaining_times = list(times)` allocates a fresh copy,
and the loop consumes only the copy. -/
def autobook_fifo_heap (o : Oracle) (line_id : Int) (day : String)
    (h : Heap) (tref : Nat) (autobook_users : List User) : List User × Heap :=
  if h.cells tref = [] then ([], h)
  else if autobook_users = [] then ([], h)
  else
    let a := h.allocCopy tref
    autobookLoopHeap o line_id day autobook_users a.2 a.1

/-! ### Orchestrator exit code (`main` in check_lobarnechea.py) -/

/-- `EXIT_AVAILABILITY_HANDLED` from config.py (defined there, returned
nowhere). -/
def EXIT_AVAILABILITY_HANDLED : Int := 42

/-- The per-line loop of `main`: consulting the available days for a target
line either raises (caught, `continue`), yields no days (`continue`), or
yields days — in which case the availability is processed (auto-booking and
notifications, which do not influence the exit code) and `main` does
`return 0`.  Falling off the loop also returns 0. -/
def mainLineLoop (days : Int → Except Unit (List String)) :
    List (String × Int) → Int
  | [] => 0
  | (_, lid) :: rest =>
    match days lid with
    | .error _ => mainLineLoop days rest
    | .ok [] => mainLineLoop days rest
    | .ok (_ :: _) => 0

/-- The exit code computed by `main`: 0 when there are no registered users
at all (`return 0` before any API check), otherwise the per-line loop. -/
def mainExitCode (activeCount pendingCount : Nat)
    (targets : List (String × Int)) (days : Int → Except Unit (List String)) : Int :=
  if activeCount = 0 ∧ pendingCount = 0 then 0
  else mainLineLoop days targets

example :
    autobook_fifo oracleAll 1 "2026-01-05" ["09:00", "09:30", "10:00"]
      [uAna, uBen, uNoLast] = [uAna, uBen] := by decide

example :
    (autobookLoop oracleAll 1 "2026-01-05" [uAna, uBen, uNoLast]
      ["09:00", "09:30", "10:00"]).2.1 = ["10:00"] := by decide

example :
    (autobookLoop oracleNoReserve 1 "2026-01-05" [uAna] ["09:00"]).2.2
      = [Call.block 1 "2026-01-05T09:00:00" (some "11111111"),
         Call.reserve 1 "2026-01-05T09:00:00"
           [⟨"rut", "11111111"⟩, ⟨"nombres", "Ana"⟩, ⟨"apellidos", "Diaz"⟩],
         Call.release 1 "2026-01-05T09:00:00" (some "11111111")] := by decide

/-! ### FIFO ordering of directory users (`get_active_users` in kapso_notifier.py)

`get_active_users` defensively re-sorts the rows the Kapso directory
returned by the key `(_parse_iso_datetime(registered_at), str(id))`.
`_parse_iso_datetime` is `datetime.fromisoformat` after replacing every
`"Z"` with `"+00:00"`, with `datetime.max` (UTC) as the sentinel for
missing, empty or unparseable values; naive results are interpreted as
UTC.  Aware datetimes compare as instants, modelled here as microseconds
from 0001-01-01T00:00:00 UTC. -/

/-- A directory row, reduced to the fields the sort key reads (`id`, read
with `str((u or {}).get("id", ""))`, and the `registered_at` value, `none`
when missing). -/
structure DirUser where
  id : String
  registered_at : Option String
  deriving DecidableEq

/-- Gregorian leap year (as Python's `datetime` computes it). -/
def isLeapYear (y : Nat) : Bool :=
  (y % 4 == 0 && y % 100 != 0) || y % 400 == 0

/-- Days in a month of a given year. -/
def daysInMonth (y m : Nat) : Nat :=
  if m = 2 then (if isLeapYear y then 29 else 28)
  else if m = 4 ∨ m = 6 ∨ m = 9 ∨ m = 11 then 30
  else 31

/-- Days from 0001-01-01 to January 1 of year `y` (Python's
`_days_before_year`). -/
def daysBeforeYear (y : Nat) : Nat :=
  365 * (y - 1) + (y - 1) / 4 - (y - 1) / 100 + (y - 1) / 400

/-- Days from January 1 to the first day of month `m` in year `y`. -/
def daysBeforeMonth (y m : Nat) : Nat :=
  (List.range (m - 1)).foldl (fun acc i => acc + daysInMonth y (i + 1)) 0

/-- Microseconds from 0001-01-01T00:00:00 to the given broken-down civil
time (no offset applied). -/
def civilMicros (y mo d hh mi ss usec : Nat) : Int :=
  (((daysBeforeYear y + daysBeforeMonth y mo + (d - 1)) * 86400
      + hh * 3600 + mi * 60 + ss) * 1000000 + usec : Nat)

/-- `datetime.max.replace(tzinfo=timezone.utc)` as an instant: the sentinel
for missing or unparseable `registered_at` values. -/
def maxDatetimeMicros : Int := civilMicros 9999 12 31 23 59 59 999999

/-- Read exactly `k` decimal digits, accumulating into `acc`. -/
def readFixed : Nat → Nat → List Char → Option (Nat × List Char)
  | 0, acc, cs => some (acc, cs)
  | k + 1, acc, c :: cs =>
    if c.isDigit then readFixed k (acc * 10 + (c.toNat - 48)) cs else none
  | _ + 1, _, [] => none

/-- Read a fractional-second field of 1 to 6 digits, as microseconds. -/
def readFrac (cs : List Char) : Option (Nat × List Char) :=
  let ds := cs.takeWhile Char.isDigit
  if ds = [] ∨ 6 < ds.length then none
  else some ((ds.foldl (fun a c => a * 10 + (c.toNat - 48)) 0) * 10 ^ (6 - ds.length),
             cs.dropWhile Char.isDigit)

/-- Read the time-of-day part `HH[:MM[:SS[.frac]]]`, returning
`(hh, mi, ss, usec, rest)`. -/
def readTimePart (cs : List Char) : Option (Nat × Nat × Nat × Nat × List Char) :=
  match readFixed 2 0 cs with
  | none => none
  | some (hh, rest) =>
    match rest with
    | ':' :: rest2 =>
      match readFixed 2 0 rest2 with
      | none => none
      | some (mi, rest3) =>
        match rest3 with
        | ':' :: rest4 =>
          match readFixed 2 0 rest4 with
          | none => none
          | some (ss, rest5) =>
            match rest5 with
            | '.' :: rest6 =>
              match readFrac rest6 with
              | none => none
              | some (usec, rest7) => some (hh, mi, ss, usec, rest7)
            | _ => some (hh, mi, ss, 0, rest5)
        | _ => some (hh, mi, 0, 0, rest3)
    | _ => some (hh, 0, 0, 0, rest)

/-- Read a trailing UTC offset: nothing (a naive datetime, offset `none`)
or `±HH:MM` with the bounds `datetime.timezone` accepts. -/
def readOffset (cs : List Char) : Option (Option Int) :=
  match cs with
  | [] => some none
  | sign :: rest =>
    if sign = '+' ∨ sign = '-' then
      match readFixed 2 0 rest with
      | some (hh, ':' :: r2) =>
        match readFixed 2 0 r2 with
        | some (mm, []) =>
          if hh ≤ 23 ∧ mm ≤ 59 then
            some (some ((if sign = '-' then -1 else 1) * (hh * 3600 + mm * 60)))
          else none
        | _ => none
      | _ => none
    else none

/-- `datetime.fromisoformat`, embedded for the shapes this system receives:
`YYYY-MM-DD`, optionally followed by `T` or space and `HH[:MM[:SS[.frac]]]`
(1–6 fractional digits), optionally followed by a `±HH:MM` offset.  Returns
the instant in microseconds from 0001-01-01T00:00:00 UTC (offset
subtracted); a naive value is taken as UTC here, matching the
`dt.replace(tzinfo=timezone.utc)` step of the caller.  `none` when the
string does not parse (Python raises `ValueError`). -/
def fromIsoformat (cs : List Char) : Option Int :=
  match readFixed 4 0 cs with
  | some (y, '-' :: r1) =>
    match readFixed 2 0 r1 with
    | some (mo, '-' :: r2) =>
      match readFixed 2 0 r2 with
      | some (d, r3) =>
        if 1 ≤ y ∧ 1 ≤ mo ∧ mo ≤ 12 ∧ 1 ≤ d ∧ d ≤ daysInMonth y mo then
          match r3 with
          | [] => some (civilMicros y mo d 0 0 0 0)
          | sep :: r4 =>
            if sep = 'T' ∨ sep = ' ' then
              match readTimePart r4 with
              | some (hh, mi, ss, usec, r5) =>
                if hh ≤ 23 ∧ mi ≤ 59 ∧ ss ≤ 59 then
                  match readOffset r5 with
                  | some offs =>
                    some (civilMicros y mo d hh mi ss usec
                            - (offs.getD 0) * 1000000)
                  | none => none
                else none
              | none => none
            else none
        else none
      | _ => none
    | _ => none
  | _ => none

/-- `value.replace("Z", "+00:00")`: expand every `'Z'` character. -/
def replaceZ (cs : List Char) : List Char :=
  cs.foldr
    (fun c acc =>
      if c = 'Z' then '+' :: '0' :: '0' :: ':' :: '0' :: '0' :: acc else c :: acc)
    []

/-- `_parse_iso_datetime`: missing (or non-string) and empty values map to
the `datetime.max` sentinel; otherwise replace `"Z"` with `"+00:00"` and
parse, falling back to the sentinel on failure. -/
def _parse_iso_datetime (value : Option String) : Int :=
  match value with
  | none => maxDatetimeMicros
  | some s =>
    if s = "" then maxDatetimeMicros
    else
      match fromIsoformat (replaceZ s.toList) with
      | some ts => ts
      | none => maxDatetimeMicros

/-- Code-point lexicographic order on character lists (Python `<` on
`str`). -/
def lexLtChar : List Char → List Char → Bool
  | [], [] => false
  | [], _ :: _ => true
  | _ :: _, [] => false
  | a :: as, b :: bs =>
    if a < b then true else if b < a then false else lexLtChar as bs

/-- Python string `<`. -/
def strLtb (a b : String) : Bool := lexLtChar a.toList b.toList

/-- The sort key comparison of `get_active_users`: the Python tuple
`(_parse_iso_datetime(registered_at), str(id))` compared lexicographically
(non-strict). -/
def userKeyLe (u v : DirUser) : Bool :=
  if _parse_iso_datetime u.registered_at < _parse_iso_datetime v.registered_at then true
  else if _parse_iso_datetime v.registered_at < _parse_iso_datetime u.registered_at then false
  else strLtb u.id v.id || u.id == v.id

/-- Insert a user into a key-sorted list, after every entry whose key is
not greater. -/
def insertByKey (u : DirUser) : List DirUser → List DirUser
  | [] => [u]
  | v :: vs => if userKeyLe v u then v :: insertByKey u vs else u :: v :: vs

/-- Python `sorted(users, key=...)`, modelled as insertion sort by the same
key (a permutation of the input, ascending by `userKeyLe`). -/
def sortUsersByKey : List DirUser → List DirUser
  | [] => []
  | u :: us => insertByKey u (sortUsersByKey us)

/-- The local defensive re-sort step of `get_active_users`, applied to the
rows the directory returned. -/
def get_active_users_sort (users : List DirUser) : List DirUser :=
  sortUsersByKey users

example :
    _parse_iso_datetime (some "2026-01-12T12:34:56Z")
      = _parse_iso_datetime (some "2026-01-12T12:34:56+00:00") := by decide

example :
    _parse_iso_datetime (some "2026-01-12T09:34:56-03:00")
      = _parse_iso_datetime (some "2026-01-12T12:34:56Z") := by decide

example : _parse_iso_datetime (some "not-a-date") = maxDatetimeMicros := by decide

example :
    get_active_users_sort
      [⟨"X", some "2026-01-02T00:00:00Z"⟩, ⟨"Y", some "2026-01-01T00:00:00Z"⟩]
      = [⟨"Y", some "2026-01-01T00:00:00Z"⟩, ⟨"X", some "2026-01-02T00:00:00Z"⟩] := by
  decide

/-! ### Helper lemmas -/

theorem eligible_true_iff (u : User) :
    eligible u = true ↔ u.rut ≠ "" ∧ u.first_name ≠ "" ∧ u.last_name ≠ "" := by
  simp [eligible, and_assoc]

theorem eligible_false_iff (u : User) :
    eligible u = false ↔ u.rut = "" ∨ u.first_name = "" ∨ u.last_name = "" := by
  rw [← Bool.not_eq_true, eligible_true_iff]
  tauto

/-- `book_appointment` of an ineligible field triple fails with no calls. -/
theorem book_appointment_ineligible (o : Oracle) (line_id : Int)
    (date time rut first last : String) (email phone : Option String)
    (h : rut = "" ∨ first = "" ∨ last = "") :
    book_appointment o line_id date time rut first last email phone = (false, []) := by
  simp [book_appointment, h]

/-- `book_appointment` of an eligible field triple with an all-succeeding
gateway succeeds. -/
theorem book_appointment_allOk (o : Oracle) (line_id : Int)
    (date time rut first last : String) (email phone : Option String)
    (hb : ∀ l dt pr, o.blockOk l dt pr = true)
    (hres : ∀ l dt fs, o.reserveOk l dt fs = true)
    (hr : rut ≠ "") (hf : first ≠ "") (hl : last ≠ "") :
    (book_appointment o line_id date time rut first last email phone).1 = true := by
  simp [book_appointment, hr, hf, hl, block_slot, generate_reservation, hb, hres]

/-- C3: for an eligible candidate, a block failure makes the transaction
fail with only the block call issued (no reservation, no release); a block
success followed by a reserve failure makes it fail with the block and
reserve calls plus exactly one compensating release call; the release
verdict never influences the result (two gateways agreeing on block and
reserve verdicts give identical outcomes and traces); and the transaction
succeeds iff both the block and the reserve succeeded. -/
theorem book_appointment_saga (o o' : Oracle) (line_id : Int)
    (date time rut first last : String) (email phone : Option String)
    (hr : rut ≠ "") (hf : first ≠ "") (hl : last ≠ "")
    (hob : o.blockOk = o'.blockOk) (hor : o.reserveOk = o'.reserveOk) :
    (o.blockOk line_id (date ++ "T" ++ time ++ ":00") (rutTag rut) = false →
        book_appointment o line_id date time rut first last email phone
          = (false, [Call.block line_id (date ++ "T" ++ time ++ ":00") (rutTag rut)]))
    ∧ (o.blockOk line_id (date ++ "T" ++ time ++ ":00") (rutTag rut) = true →
       o.reserveOk line_id (date ++ "T" ++ time ++ ":00")
           (reservationFields rut first last email phone) = false →
        book_appointment o line_id date time rut first last email phone
          = (false,
             [Call.block line_id (date ++ "T" ++ time ++ ":00") (rutTag rut),
              Call.reserve line_id (date ++ "T" ++ time ++ ":00")
                (reservationFields rut first last email phone),
              Call.release line_id (date ++ "T" ++ time ++ ":00") (rutTag rut)]))
    ∧ ((book_appointment o line_id date time rut first last email phone).1 = true ↔
        o.blockOk line_id (date ++ "T" ++ time ++ ":00") (rutTag rut) = true ∧
        o.reserveOk line_id (date ++ "T" ++ time ++ ":00")
          (reservationFields rut first last email phone) = true)
    ∧ book_appointment o line_id date time rut first last email phone
        = book_appointment o' line_id date time rut first last email phone := by
  refine ⟨?_, ?_, ?_, ?_⟩
  · intro hb
    simp [book_appointment, hr, hf, hl, block_slot, generate_reservation, hb]
  · intro hb hres
    simp [book_appointment, hr, hf, hl, block_slot, generate_reservation,
      remove_block, hb, hres]
  · by_cases hb : o.blockOk line_id (date ++ "T" ++ time ++ ":00") (rutTag rut) = true
    · by_cases hres : o.reserveOk line_id (date ++ "T" ++ time ++ ":00")
        (reservationFields rut first last email phone) = true
      · simp [book_appointment, hr, hf, hl, block_slot, generate_reservation, hb, hres]
      · simp [book_appointment, hr, hf, hl, block_slot, generate_reservation,
          remove_block, hb, hres]
    · simp [book_appointment, hr, hf, hl, block_slot, generate_reservation, hb]
  · simp [book_appointment, hr, hf, hl, block_slot, generate_reservation,
      remove_block, hob, hor]

/-- Witness for C3: concrete instance with a blocking-but-not-reserving
gateway, compared against the same gateway with succeeding releases. -/
theorem book_appointment_saga_witness :
    ("19" : String) ≠ "" ∧
    book_appointment oracleNoReserve 1 "2026-01-05" "09:00" "19" "Ana" "Diaz" none none
      = book_appointment oracleNoReserveB 1 "2026-01-05" "09:00" "19" "Ana" "Diaz" none none :=
  ⟨by decide,
   (book_appointment_saga oracleNoReserve oracleNoReserveB 1 "2026-01-05" "09:00"
      "19" "Ana" "Diaz" none none (by decide) (by decide) (by decide) rfl rfl).2.2.2⟩

/-- A successful inner loop returns a member of the snapshot it walked. -/
theorem attemptTimes_some_mem (o : Oracle) (line_id : Int) (day : String) (u : User) :
    ∀ {ts : List String} {t : String},
      (attemptTimes o line_id day u ts).1 = some t → t ∈ ts := by
  intro ts
  induction ts with
  | nil => intro t h; simp [attemptTimes] at h
  | cons a as ih =>
    intro t h
    by_cases hb :
        (book_appointment o line_id day a u.rut u.first_name u.last_name u.email u.phone).1 = true
    · simp [attemptTimes, hb] at h
      simp [h]
    · simp [attemptTimes, hb] at h
      exact List.mem_cons_of_mem a (ih h)

/-- The inner loop returns the first time whose transaction succeeds: if
every earlier time fails and `t` succeeds, the result is `t`. -/
theorem attemptTimes_append_success (o : Oracle) (line_id : Int) (day : String)
    (u : User) (t : String) (r2 : List String)
    (ht : (book_appointment o line_id day t u.rut u.first_name u.last_name u.email u.phone).1
            = true) :
    ∀ r1 : List String,
      (∀ s ∈ r1,
        (book_appointment o line_id day s u.rut u.first_name u.last_name u.email u.phone).1
          = false) →
      (attemptTimes o line_id day u (r1 ++ t :: r2)).1 = some t := by
  intro r1
  induction r1 with
  | nil => intro _; simp [attemptTimes, ht]
  | cons a as ih =>
    intro hfail
    have ha := hfail a (List.mem_cons_self a as)
    simp only [List.cons_append, attemptTimes, ha]
    simpa using ih fun s hs => hfail s (List.mem_cons_of_mem a hs)

/-- Every committed pair of the allocator loop is for an eligible user. -/
theorem autobookLoop_booked_eligible (o : Oracle) (line_id : Int) (day : String) :
    ∀ (us : List User) (r : List String) (p : User × String),
      p ∈ (autobookLoop o line_id day us r).1 → eligible p.1 = true := by
  intro us
  induction us with
  | nil => intro r p hp; simp [autobookLoop] at hp
  | cons u rest ih =>
    intro r p hp
    by_cases hr0 : r = []
    · simp [autobookLoop, hr0] at hp
    · by_cases he : eligible u = false
      · simp only [autobookLoop, hr0, if_false, he, if_true] at hp
        exact ih r p hp
      · rcases ht : (attemptTimes o line_id day u r).1 with _ | t
        · simp only [autobookLoop, hr0, if_false, he, ht] at hp
          exact ih r p hp
        · simp only [autobookLoop, hr0, if_false, he, ht] at hp
          rcases List.mem_cons.mp hp with hpu | hp'
          · subst hpu
            exact Bool.not_eq_false (eligible u) |>.mp he |> fun h => h
          · exact ih (r.erase t) p hp'

/-- The booked users are a subsequence of the input candidate list. -/
theorem autobookLoop_fst_sublist (o : Oracle) (line_id : Int) (day : String) :
    ∀ (us : List User) (r : List String),
      (((autobookLoop o line_id day us r).1).map Prod.fst).Sublist us := by
  intro us
  induction us with
  | nil => intro r; simp [autobookLoop]
  | cons u rest ih =>
    intro r
    by_cases hr0 : r = []
    · simp [autobookLoop, hr0]
    · by_cases he : eligible u = false
      · simp only [autobookLoop, hr0, if_false, he, if_true]
        exact (ih r).cons u
      · rcases ht : (attemptTimes o line_id day u r).1 with _ | t
        · simp only [autobookLoop, hr0, if_false, he, ht]
          exact (ih r).cons u
        · simp only [autobookLoop, hr0, if_false, he, ht, List.map_cons]
          exact List.cons_sublist_cons.mpr (ih (r.erase t))

/-- Conservation of time occurrences: for every time value, its committed
count plus its remaining count equals its count in the input pool. -/
theorem autobookLoop_count (o : Oracle) (line_id : Int) (day : String) :
    ∀ (us : List User) (r : List String) (s : String),
      (((autobookLoop o line_id day us r).1).map Prod.snd).count s
        + ((autobookLoop o line_id day us r).2.1).count s = r.count s := by
  intro us
  induction us with
  | nil => intro r s; simp [autobookLoop]
  | cons u rest ih =>
    intro r s
    by_cases hr0 : r = []
    · simp [autobookLoop, hr0]
    · by_cases he : eligible u = false
      · simp only [autobookLoop, hr0, if_false, he, if_true]
        exact ih r s
      · rcases ht : (attemptTimes o line_id day u r).1 with _ | t
        · simp only [autobookLoop, hr0, if_false, he, ht]
          exact ih r s
        · have htm : t ∈ r := attemptTimes_some_mem o line_id day u ht
          have hpos : 0 < r.count t := List.count_pos_iff.mpr htm
          have hcnt := ih (r.erase t) s
          simp only [autobookLoop, hr0, if_false, he, ht, Bool.true_eq_false,
            List.map_cons, List.count_cons]
          by_cases hst : t = s
          · subst hst
            have h1 : (r.erase t).count t = r.count t - 1 := List.count_erase_self t r
            simp
            omega
          · have h1 : (r.erase t).count s = r.count s := by
              rw [List.count_erase_of_ne (fun h => hst h.symm) r]
            simp [hst]
            omega

/-- C1 counterexample: with the duplicated time value "09:00" in the input
pool and an all-succeeding gateway, the allocator commits two bookings
consuming the same time value. -/
theorem autobook_duplicate_time_value :
    ((autobookLoop oracleAll 1 "2026-01-05" [uAna, uBen] ["09:00", "09:00"]).1.map Prod.snd)
      = ["09:00", "09:00"]
    ∧ ¬ (((autobookLoop oracleAll 1 "2026-01-05" [uAna, uBen]
          ["09:00", "09:00"]).1.map Prod.snd).Nodup) := by
  decide

/-- C1 (amended): each occurrence of a time in the input list is consumed
by at most one committed booking — the committed times, counted with
multiplicity, are bounded by the input pool — so when the input times are
pairwise distinct no two committed bookings share a time value. -/
theorem autobook_time_consumed_once (o : Oracle) (line_id : Int) (day : String)
    (times : List String) (users : List User) :
    (∀ s : String,
        (((autobookLoop o line_id day users times).1).map Prod.snd).count s
          ≤ times.count s)
    ∧ (times.Nodup →
        (((autobookLoop o line_id day users times).1).map Prod.snd).Nodup) := by
  constructor
  · intro s
    have h := autobookLoop_count o line_id day users times s
    omega
  · intro hnd
    rw [List.nodup_iff_count_le_one] at hnd ⊢
    intro a
    have h := autobookLoop_count o line_id day users times a
    have h2 := hnd a
    omega

/-- Witness for C1 (amended) at a duplicate-free pool. -/
theorem autobook_time_consumed_once_witness :
    (["09:00", "10:00"] : List String).Nodup ∧
    (((autobookLoop oracleAll 1 "2026-01-05" [uAna, uBen]
        ["09:00", "10:00"]).1).map Prod.snd).Nodup :=
  ⟨by decide,
   (autobook_time_consumed_once oracleAll 1 "2026-01-05" ["09:00", "10:00"]
      [uAna, uBen]).2 (by decide)⟩

/-- Strict code-point order is irreflexive. -/
theorem lexLtChar_irrefl : ∀ cs : List Char, lexLtChar cs cs = false
  | [] => rfl
  | c :: cs => by
    show (if c < c then true else if c < c then false else lexLtChar cs cs) = false
    rw [if_neg (lt_irrefl c), if_neg (lt_irrefl c)]
    exact lexLtChar_irrefl cs

/-- Strictly ordered strings are distinct. -/
theorem strLtb_ne {a b : String} (h : strLtb a b = true) : a ≠ b := by
  intro hab
  subst hab
  rw [strLtb, lexLtChar_irrefl] at h
  cases h

/-- C2: when every gateway call succeeds and every candidate is eligible,
the committed pairs are exactly the positional zip of the candidate list
with the (strictly ascending) time list: exactly min(N, M) candidates are
booked, the i-th candidate in input order to the i-th earliest time, and
the assigned times are pairwise distinct. -/
theorem autobook_all_success_zip (o : Oracle) (line_id : Int) (day : String)
    (times : List String) (users : List User)
    (hb : ∀ l dt pr, o.blockOk l dt pr = true)
    (hres : ∀ l dt fs, o.reserveOk l dt fs = true)
    (he : ∀ u ∈ users, eligible u = true)
    (hsorted : times.Pairwise fun a b => strLtb a b = true) :
    (autobookLoop o line_id day users times).1 = users.zip times
    ∧ (autobookLoop o line_id day users times).1.length
        = min users.length times.length
    ∧ (((autobookLoop o line_id day users times).1).map Prod.snd).Nodup := by
  have hmain : ∀ us : List User, (∀ u ∈ us, eligible u = true) → ∀ ts : List String,
      (autobookLoop o line_id day us ts).1 = us.zip ts := by
    intro us
    induction us with
    | nil => intro _ ts; simp [autobookLoop]
    | cons u rest ih =>
      intro hels ts
      cases ts with
      | nil => simp [autobookLoop]
      | cons t ts' =>
        have hu : eligible u = true := hels u (List.mem_cons_self u rest)
        obtain ⟨h1, h2, h3⟩ := (eligible_true_iff u).mp hu
        have hbk : (book_appointment o line_id day t u.rut u.first_name u.last_name
            u.email u.phone).1 = true :=
          book_appointment_allOk o line_id day t u.rut u.first_name u.last_name
            u.email u.phone hb hres h1 h2 h3
        have hat : (attemptTimes o line_id day u (t :: ts')).1 = some t := by
          simp [attemptTimes, hbk]
        have hne : eligible u = false → False := by simp [hu]
        simp only [autobookLoop, hu, hat, Bool.true_eq_false, if_false,
          List.erase_cons_head, List.zip_cons_cons, reduceCtorEq]
        exact congrArg _ (ih (fun v hv => hels v (List.mem_cons_of_mem u hv)) ts')
  have hzip := hmain users he times
  refine ⟨hzip, ?_, ?_⟩
  · rw [hzip, List.length_zip]
  · rw [hzip]
    have htake : ∀ (us : List User) (ts : List String),
        ((us.zip ts).map Prod.snd) = ts.take us.length := by
      intro us
      induction us with
      | nil => intro ts; simp
      | cons u us' ih =>
        intro ts
        cases ts with
        | nil => simp
        | cons t ts' => simp [ih ts']
    rw [htake]
    have hnd : times.Nodup := hsorted.imp fun hab => strLtb_ne hab
    exact List.Nodup.sublist (List.take_sublist users.length times) hnd

/-- Witness for C2 on an all-succeeding gateway. -/
theorem autobook_all_success_zip_witness :
    (∀ u ∈ [uAna, uBen], eligible u = true) ∧
    (autobookLoop oracleAll 1 "2026-01-05" [uAna, uBen] ["09:00", "09:30", "10:00"]).1
      = [uAna, uBen].zip ["09:00", "09:30", "10:00"] :=
  ⟨by decide,
   (autobook_all_success_zip oracleAll 1 "2026-01-05" ["09:00", "09:30", "10:00"]
      [uAna, uBen] (fun _ _ _ => rfl) (fun _ _ _ => rfl) (by decide) (by decide)).1⟩

/-- C4: the pool shrinks only on confirmed success.  For an eligible
candidate's turn: if every attempt fails, the turn commits nothing and the
pool handed to the remaining candidates is unchanged; if some attempt
succeeds, the candidate is booked to the first succeeding time, only that
occurrence leaves the pool (every other time value stays), and in
particular when earlier times fail and `t` succeeds the candidate is booked
to `t`. -/
theorem autobook_consume_only_on_success (o : Oracle) (line_id : Int) (day : String)
    (u : User) (rest : List User) (r : List String)
    (hu : eligible u = true) (hr : r ≠ []) :
    ((attemptTimes o line_id day u r).1 = none →
        (autobookLoop o line_id day (u :: rest) r).1
          = (autobookLoop o line_id day rest r).1
        ∧ (autobookLoop o line_id day (u :: rest) r).2.1
          = (autobookLoop o line_id day rest r).2.1)
    ∧ (∀ t, (attemptTimes o line_id day u r).1 = some t →
        t ∈ r
        ∧ (autobookLoop o line_id day (u :: rest) r).1
            = (u, t) :: (autobookLoop o line_id day rest (r.erase t)).1
        ∧ (autobookLoop o line_id day (u :: rest) r).2.1
            = (autobookLoop o line_id day rest (r.erase t)).2.1
        ∧ ∀ s ∈ r, s ≠ t → s ∈ r.erase t)
    ∧ (∀ (r1 : List String) (t : String) (r2 : List String), r = r1 ++ t :: r2 →
        (∀ s ∈ r1,
          (book_appointment o line_id day s u.rut u.first_name u.last_name
            u.email u.phone).1 = false) →
        (book_appointment o line_id day t u.rut u.first_name u.last_name
          u.email u.phone).1 = true →
        (attemptTimes o line_id day u r).1 = some t) := by
  refine ⟨?_, ?_, ?_⟩
  · intro hnone
    constructor <;>
      simp only [autobookLoop, hr, hu, hnone, Bool.true_eq_false, if_false]
  · intro t ht
    refine ⟨attemptTimes_some_mem o line_id day u ht, ?_, ?_, ?_⟩
    · simp only [autobookLoop, hr, hu, ht, Bool.true_eq_false, if_false]
    · simp only [autobookLoop, hr, hu, ht, Bool.true_eq_false, if_false]
    · intro s hs hst
      exact (List.mem_erase_of_ne hst).mpr hs
  · intro r1 t r2 hre hfail hok
    subst hre
    exact attemptTimes_append_success o line_id day u t r2 hok r1 hfail

/-- Witness for C4: an all-failing gateway leaves the pool unchanged. -/
theorem autobook_consume_only_on_success_witness :
    eligible uAna = true ∧ (["09:00"] : List String) ≠ [] ∧
    (autobookLoop oracleNone 1 "2026-01-05" [uAna] ["09:00"]).2.1
      = (autobookLoop oracleNone 1 "2026-01-05" ([] : List User) ["09:00"]).2.1 :=
  ⟨by decide, by decide,
   ((autobook_consume_only_on_success oracleNone 1 "2026-01-05" uAna [] ["09:00"]
      (by decide) (by decide)).1 (by decide)).2⟩

/-- C5: every committed booking is for an eligible candidate — a candidate
with an empty rut, first name or last name never appears in the committed
output — and the single-booking transaction on such a candidate fails
immediately with no gateway call at all. -/
theorem autobook_ineligible_never_booked (o : Oracle) (line_id : Int) (day : String)
    (times : List String) (users : List User) (u : User)
    (h : eligible u = false) :
    (∀ p ∈ (autobookLoop o line_id day users times).1, eligible p.1 = true)
    ∧ u ∉ autobook_fifo o line_id day times users
    ∧ ∀ t, book_appointment o line_id day t u.rut u.first_name u.last_name
            u.email u.phone = (false, []) := by
  refine ⟨fun p hp => autobookLoop_booked_eligible o line_id day users times p hp, ?_, ?_⟩
  · intro hmem
    have hm : u ∈ ((autobookLoop o line_id day users times).1).map Prod.fst := by
      unfold autobook_fifo at hmem
      split_ifs at hmem with h1 h2
      · exact absurd hmem (List.not_mem_nil u)
      · exact absurd hmem (List.not_mem_nil u)
      · exact hmem
    obtain ⟨p, hp, hpu⟩ := List.mem_map.mp hm
    have hpe := autobookLoop_booked_eligible o line_id day users times p hp
    rw [hpu, h] at hpe
    cases hpe
  · intro t
    exact book_appointment_ineligible o line_id day t u.rut u.first_name u.last_name
      u.email u.phone ((eligible_false_iff u).mp h)

/-- Witness for C5: the candidate with an empty last name is absent from a
concrete committed output. -/
theorem autobook_ineligible_never_booked_witness :
    eligible uNoLast = false ∧
    uNoLast ∉ autobook_fifo oracleAll 1 "2026-01-05" ["09:00"] [uAna, uNoLast] :=
  ⟨by decide,
   (autobook_ineligible_never_booked oracleAll 1 "2026-01-05" ["09:00"]
      [uAna, uNoLast] uNoLast (by decide)).2.1⟩

/-- C6 counterexample: two input candidates sharing the identifier "u1" are
both booked by an all-succeeding gateway, so the committed output repeats a
candidate identifier. -/
theorem autobook_duplicate_candidate_id :
    (autobook_fifo oracleAll 1 "2026-01-05" ["09:00", "10:00"] [uAna, uAnaTwin]).map User.id
      = ["u1", "u1"]
    ∧ ¬ ((autobook_fifo oracleAll 1 "2026-01-05" ["09:00", "10:00"]
          [uAna, uAnaTwin]).map User.id).Nodup := by
  decide

/-- C6 (amended): the committed output is a subsequence of the input
candidate list — each input occurrence is booked at most once — hence
pairwise-distinct input identifiers never repeat in the output. -/
theorem autobook_candidate_booked_once (o : Oracle) (line_id : Int) (day : String)
    (times : List String) (users : List User) :
    (autobook_fifo o line_id day times users).Sublist users
    ∧ ((users.map User.id).Nodup →
        ((autobook_fifo o line_id day times users).map User.id).Nodup) := by
  have hsub : (autobook_fifo o line_id day times users).Sublist users := by
    unfold autobook_fifo
    split_ifs
    · exact List.nil_sublist users
    · exact List.nil_sublist users
    · exact autobookLoop_fst_sublist o line_id day users times
  exact ⟨hsub, fun hnd => List.Nodup.sublist (hsub.map User.id) hnd⟩

/-- Witness for C6 (amended) at distinct input identifiers. -/
theorem autobook_candidate_booked_once_witness :
    (([uAna, uBen].map User.id).Nodup) ∧
    ((autobook_fifo oracleAll 1 "2026-01-05" ["09:00"] [uAna, uBen]).map User.id).Nodup :=
  ⟨by decide,
   (autobook_candidate_booked_once oracleAll 1 "2026-01-05" ["09:00"] [uAna, uBen]).2
     (by decide)⟩

/-! ### Order lemmas for the directory sort key -/

theorem lexLtChar_nil_right : ∀ b : List Char, lexLtChar b [] = false
  | [] => rfl
  | _ :: _ => rfl

theorem lexLtChar_connex : ∀ (a b : List Char),
    lexLtChar a b = false → lexLtChar b a = false → a = b
  | [], [], _, _ => rfl
  | [], _ :: _, h, _ => by simp [lexLtChar] at h
  | _ :: _, [], _, h => by simp [lexLtChar] at h
  | a :: as, b :: bs, h1, h2 => by
    by_cases hab : a < b
    · simp [lexLtChar, hab] at h1
    · by_cases hba : b < a
      · simp [lexLtChar, hba] at h2
      · have hEq : a = b := by
          rcases lt_trichotomy a b with h | h | h
          · exact absurd h hab
          · exact h
          · exact absurd h hba
        subst hEq
        simp only [lexLtChar, if_neg (lt_irrefl a)] at h1 h2
        rw [lexLtChar_connex as bs h1 h2]

theorem lexLtChar_trans : ∀ (a b c : List Char),
    lexLtChar a b = true → lexLtChar b c = true → lexLtChar a c = true
  | [], _, _ :: _, _, _ => rfl
  | [], b, [], _, h2 => by rw [lexLtChar_nil_right] at h2; cases h2
  | _ :: _, [], _, h1, _ => by rw [lexLtChar_nil_right] at h1; cases h1
  | _ :: _, _ :: _, [], _, h2 => by rw [lexLtChar_nil_right] at h2; cases h2
  | a :: as, b :: bs, c :: cs, h1, h2 => by
    by_cases hab : a < b
    · by_cases hbc : b < c
      · have hac : a < c := lt_trans hab hbc
        simp [lexLtChar, hac]
      · by_cases hcb : c < b
        · simp [lexLtChar, hbc, hcb] at h2
        · have hEq : b = c := by
            rcases lt_trichotomy b c with h | h | h
            · exact absurd h hbc
            · exact h
            · exact absurd h hcb
          subst hEq
          simp [lexLtChar, hab]
    · by_cases hba : b < a
      · simp [lexLtChar, hab, hba] at h1
      · have hEq : a = b := by
          rcases lt_trichotomy a b with h | h | h
          · exact absurd h hab
          · exact h
          · exact absurd h hba
        subst hEq
        simp only [lexLtChar, if_neg (lt_irrefl a)] at h1
        by_cases hac : a < c
        · simp [lexLtChar, hac]
        · by_cases hca : c < a
          · simp [lexLtChar, hac, hca] at h2
          · have hEq2 : a = c := by
              rcases lt_trichotomy a c with h | h | h
              · exact absurd h hac
              · exact h
              · exact absurd h hca
            subst hEq2
            simp only [lexLtChar, if_neg (lt_irrefl a)] at h2 ⊢
            exact lexLtChar_trans as bs cs h1 h2

theorem strLtb_trans {a b c : String}
    (h1 : strLtb a b = true) (h2 : strLtb b c = true) : strLtb a c = true :=
  lexLtChar_trans a.toList b.toList c.toList h1 h2

theorem strLtb_connex {a b : String}
    (h1 : strLtb a b = false) (h2 : strLtb b a = false) : a = b := by
  have hl := lexLtChar_connex a.toList b.toList h1 h2
  cases a
  cases b
  exact congrArg String.mk (by simpa using hl)

/-- `userKeyLe` spelt out: strictly earlier parsed timestamp, or equal
timestamps and identifier not greater. -/
theorem userKeyLe_iff (u v : DirUser) :
    userKeyLe u v = true ↔
      _parse_iso_datetime u.registered_at < _parse_iso_datetime v.registered_at
      ∨ (_parse_iso_datetime u.registered_at = _parse_iso_datetime v.registered_at
          ∧ (strLtb u.id v.id = true ∨ u.id = v.id)) := by
  unfold userKeyLe
  by_cases h1 : _parse_iso_datetime u.registered_at < _parse_iso_datetime v.registered_at
  · simp [h1]
  · by_cases h2 : _parse_iso_datetime v.registered_at < _parse_iso_datetime u.registered_at
    · have hne : ¬ _parse_iso_datetime u.registered_at
          = _parse_iso_datetime v.registered_at := by omega
      simp [h1, h2, hne]
    · have heq : _parse_iso_datetime u.registered_at
          = _parse_iso_datetime v.registered_at := by omega
      simp [h1, h2, heq]

theorem userKeyLe_total (u v : DirUser) :
    userKeyLe u v = true ∨ userKeyLe v u = true := by
  rw [userKeyLe_iff, userKeyLe_iff]
  by_cases h1 : _parse_iso_datetime u.registered_at < _parse_iso_datetime v.registered_at
  · exact Or.inl (Or.inl h1)
  · by_cases h2 : _parse_iso_datetime v.registered_at < _parse_iso_datetime u.registered_at
    · exact Or.inr (Or.inl h2)
    · have heq : _parse_iso_datetime u.registered_at
          = _parse_iso_datetime v.registered_at := by omega
      by_cases h3 : strLtb u.id v.id = true
      · exact Or.inl (Or.inr ⟨heq, Or.inl h3⟩)
      · by_cases h4 : strLtb v.id u.id = true
        · exact Or.inr (Or.inr ⟨heq.symm, Or.inl h4⟩)
        · have hid : u.id = v.id :=
            strLtb_connex (Bool.eq_false_iff.mpr h3) (Bool.eq_false_iff.mpr h4)
          exact Or.inl (Or.inr ⟨heq, Or.inr hid⟩)

theorem userKeyLe_trans {u v w : DirUser}
    (h1 : userKeyLe u v = true) (h2 : userKeyLe v w = true) :
    userKeyLe u w = true := by
  rw [userKeyLe_iff] at h1 h2 ⊢
  rcases h1 with h1 | ⟨he1, hi1⟩
  · rcases h2 with h2 | ⟨he2, _⟩
    · exact Or.inl (lt_trans h1 h2)
    · exact Or.inl (he2 ▸ h1)
  · rcases h2 with h2 | ⟨he2, hi2⟩
    · exact Or.inl (he1 ▸ h2)
    · refine Or.inr ⟨he1.trans he2, ?_⟩
      rcases hi1 with hi1 | hi1
      · rcases hi2 with hi2 | hi2
        · exact Or.inl (strLtb_trans hi1 hi2)
        · exact Or.inl (hi2 ▸ hi1)
      · rcases hi2 with hi2 | hi2
        · exact Or.inl (hi1 ▸ hi2)
        · exact Or.inr (hi1.trans hi2)

theorem userKeyLe_ts_le {u v : DirUser} (h : userKeyLe u v = true) :
    _parse_iso_datetime u.registered_at ≤ _parse_iso_datetime v.registered_at := by
  rcases (userKeyLe_iff u v).mp h with h | ⟨h, _⟩
  · exact le_of_lt h
  · exact le_of_eq h

theorem mem_insertByKey {x u : DirUser} : ∀ {l : List DirUser},
    x ∈ insertByKey u l → x = u ∨ x ∈ l := by
  intro l
  induction l with
  | nil =>
    intro h
    rw [insertByKey] at h
    exact Or.inl (List.mem_singleton.mp h)
  | cons v vs ih =>
    intro h
    rw [insertByKey] at h
    by_cases hvu : userKeyLe v u = true
    · rw [if_pos hvu] at h
      rcases List.mem_cons.mp h with h | h
      · exact Or.inr (h ▸ List.mem_cons_self v vs)
      · rcases ih h with h | h
        · exact Or.inl h
        · exact Or.inr (List.mem_cons_of_mem v h)
    · rw [if_neg hvu] at h
      rcases List.mem_cons.mp h with h | h
      · exact Or.inl h
      · exact Or.inr h

theorem insertByKey_perm (u : DirUser) : ∀ l : List DirUser,
    (insertByKey u l).Perm (u :: l)
  | [] => List.Perm.refl _
  | v :: vs => by
    rw [insertByKey]
    by_cases hvu : userKeyLe v u = true
    · rw [if_pos hvu]
      exact ((insertByKey_perm u vs).cons v).trans (List.Perm.swap u v vs)
    · rw [if_neg hvu]

theorem sortUsersByKey_perm : ∀ l : List DirUser, (sortUsersByKey l).Perm l
  | [] => List.Perm.refl _
  | u :: us =>
    (insertByKey_perm u (sortUsersByKey us)).trans ((sortUsersByKey_perm us).cons u)

theorem pairwise_insertByKey (u : DirUser) : ∀ l : List DirUser,
    l.Pairwise (fun a b => userKeyLe a b = true) →
    (insertByKey u l).Pairwise (fun a b => userKeyLe a b = true)
  | [], _ => by
    rw [insertByKey]
    exact List.pairwise_singleton _ u
  | v :: vs, h => by
    rw [insertByKey]
    rcases List.pairwise_cons.mp h with ⟨hv, hvs⟩
    by_cases hvu : userKeyLe v u = true
    · rw [if_pos hvu]
      refine List.pairwise_cons.mpr ⟨?_, pairwise_insertByKey u vs hvs⟩
      intro x hx
      rcases mem_insertByKey hx with rfl | hx'
      · exact hvu
      · exact hv x hx'
    · rw [if_neg hvu]
      have huv : userKeyLe u v = true := (userKeyLe_total u v).resolve_right hvu
      refine List.pairwise_cons.mpr ⟨?_, h⟩
      intro x hx
      rcases List.mem_cons.mp hx with rfl | hx'
      · exact huv
      · exact userKeyLe_trans huv (hv x hx')

theorem pairwise_sortUsersByKey : ∀ l : List DirUser,
    (sortUsersByKey l).Pairwise (fun a b => userKeyLe a b = true)
  | [] => List.Pairwise.nil
  | u :: us => pairwise_insertByKey u (sortUsersByKey us) (pairwise_sortUsersByKey us)

/-- C7: the local re-sort of directory users is a permutation of the rows
the directory returned, ascending by the key (parsed `registered_at`, then
identifier); any entry carrying the missing/unparseable sentinel timestamp
is followed only by entries whose timestamp is at least the sentinel (so
normally-timestamped candidates never come after it); and the spec's
scenario `[X(t=2), Y(t=1)]` is re-ordered to `[Y, X]`. -/
theorem get_active_users_resort (users : List DirUser) :
    (get_active_users_sort users).Perm users
    ∧ (get_active_users_sort users).Pairwise (fun u v => userKeyLe u v = true)
    ∧ (∀ (l1 : List DirUser) (u : DirUser) (l2 : List DirUser),
        get_active_users_sort users = l1 ++ u :: l2 →
        _parse_iso_datetime u.registered_at = maxDatetimeMicros →
        ∀ v ∈ l2, maxDatetimeMicros ≤ _parse_iso_datetime v.registered_at)
    ∧ get_active_users_sort
        [⟨"X", some "2026-01-02T00:00:00Z"⟩, ⟨"Y", some "2026-01-01T00:00:00Z"⟩]
        = [⟨"Y", some "2026-01-01T00:00:00Z"⟩, ⟨"X", some "2026-01-02T00:00:00Z"⟩] := by
  refine ⟨sortUsersByKey_perm users, pairwise_sortUsersByKey users, ?_, by decide⟩
  intro l1 u l2 hsp hmax v hv
  have hp := pairwise_sortUsersByKey users
  rw [get_active_users_sort] at hsp
  rw [hsp] at hp
  rcases List.pairwise_append.mp hp with ⟨_, hcons, _⟩
  rcases List.pairwise_cons.mp hcons with ⟨hu, _⟩
  have hle := userKeyLe_ts_le (hu v hv)
  omega

/-- Witness for C7: with two sentinel-timestamped users around a dated one,
the dated user sorts first and everything after the first sentinel user has
a sentinel-or-later timestamp. -/
theorem get_active_users_resort_witness :
    get_active_users_sort
        [⟨"A", none⟩, ⟨"B", some "2026-01-01T00:00:00Z"⟩, ⟨"C", none⟩]
      = [⟨"B", some "2026-01-01T00:00:00Z"⟩, ⟨"A", none⟩, ⟨"C", none⟩]
    ∧ maxDatetimeMicros ≤ _parse_iso_datetime (DirUser.mk "C" none).registered_at :=
  ⟨by decide,
   (get_active_users_resort
      [⟨"A", none⟩, ⟨"B", some "2026-01-01T00:00:00Z"⟩, ⟨"C", none⟩]).2.2.1
     [⟨"B", some "2026-01-01T00:00:00Z"⟩] ⟨"A", none⟩ [⟨"C", none⟩]
     (by decide) (by decide) ⟨"C", none⟩ (by decide)⟩

/-- The trace of one `book_appointment` run takes one of four shapes. -/
theorem book_appointment_trace_shapes (o : Oracle) (line_id : Int)
    (date time rut first last : String) (email phone : Option String) :
    (book_appointment o line_id date time rut first last email phone).2 = []
    ∨ (book_appointment o line_id date time rut first last email phone).2
        = [Call.block line_id (date ++ "T" ++ time ++ ":00") (rutTag rut)]
    ∨ (book_appointment o line_id date time rut first last email phone).2
        = [Call.block line_id (date ++ "T" ++ time ++ ":00") (rutTag rut),
           Call.reserve line_id (date ++ "T" ++ time ++ ":00")
             (reservationFields rut first last email phone)]
    ∨ (book_appointment o line_id date time rut first last email phone).2
        = [Call.block line_id (date ++ "T" ++ time ++ ":00") (rutTag rut),
           Call.reserve line_id (date ++ "T" ++ time ++ ":00")
             (reservationFields rut first last email phone),
           Call.release line_id (date ++ "T" ++ time ++ ":00") (rutTag rut)] := by
  by_cases hg : rut = "" ∨ first = "" ∨ last = ""
  · left
    simp [book_appointment, hg]
  · by_cases hb : o.blockOk line_id (date ++ "T" ++ time ++ ":00") (rutTag rut) = false
    · right; left
      simp [book_appointment, hg, block_slot, hb]
    · by_cases hres : o.reserveOk line_id (date ++ "T" ++ time ++ ":00")
          (reservationFields rut first last email phone) = true
      · right; right; left
        simp [book_appointment, hg, block_slot, generate_reservation, hb, hres]
      · right; right; right
        simp [book_appointment, hg, block_slot, generate_reservation, remove_block,
          hb, hres]

/-- C8 counterexample: for the rut "12.345.678-9", the block request is
tagged with the digits-only "123456789" but the reservation request carries
the raw rut, which contains non-digit characters. -/
theorem book_appointment_raw_rut_in_reserve :
    (book_appointment oracleAll 1 "2026-01-05" "09:00" "12.345.678-9" "Ana" "Diaz"
        none none).2
      = [Call.block 1 "2026-01-05T09:00:00" (some "123456789"),
         Call.reserve 1 "2026-01-05T09:00:00"
           [⟨"rut", "12.345.678-9"⟩, ⟨"nombres", "Ana"⟩, ⟨"apellidos", "Diaz"⟩]]
    ∧ ("12.345.678-9".toList.all Char.isDigit) = false := by decide

/-- C8 (amended): every temporary-block and release request issued by the
single-booking transaction is tagged with the digits-only normalized rut,
present exactly when some digit remains (omitted otherwise); the
reservation request carries the rut exactly as provided — the source does
not normalize it there. -/
theorem book_appointment_rut_payload (o : Oracle) (line_id : Int)
    (date time rut first last : String) (email phone : Option String) :
    (∀ l dt pr, Call.block l dt pr
        ∈ (book_appointment o line_id date time rut first last email phone).2 →
        pr = rutTag rut)
    ∧ (∀ l dt pr, Call.release l dt pr
        ∈ (book_appointment o line_id date time rut first last email phone).2 →
        pr = rutTag rut)
    ∧ (∀ l dt fs, Call.reserve l dt fs
        ∈ (book_appointment o line_id date time rut first last email phone).2 →
        fs = reservationFields rut first last email phone)
    ∧ ((_normalize_rut rut).toList.all Char.isDigit = true)
    ∧ rutTag rut
        = (if _normalize_rut rut = "" then none else some (_normalize_rut rut)) := by
  have htr := book_appointment_trace_shapes o line_id date time rut first last email phone
  have hdig : (_normalize_rut rut).toList.all Char.isDigit = true := by
    rw [List.all_eq_true]
    intro c hc
    have hc' : c ∈ rut.toList.filter fun c => c.isDigit := hc
    exact (List.mem_filter.mp hc').2
  refine ⟨?_, ?_, ?_, hdig, rfl⟩
  · intro l dt pr hmem
    rcases htr with h | h | h | h <;> (rw [h] at hmem; simp at hmem; try tauto)
  · intro l dt pr hmem
    rcases htr with h | h | h | h <;> (rw [h] at hmem; simp at hmem; try tauto)
  · intro l dt fs hmem
    rcases htr with h | h | h | h <;> (rw [h] at hmem; simp at hmem; try tauto)

/-- Witness for C8 (amended): the release call of a failing-reserve run is
tagged with the normalized rut. -/
theorem book_appointment_rut_payload_witness :
    (some "123456789" : Option String) = rutTag "12.345.678-9" :=
  (book_appointment_rut_payload oracleNoReserve 1 "2026-01-05" "09:00" "12.345.678-9"
    "Ana" "Diaz" none none).2.1 1 "2026-01-05T09:00:00" (some "123456789") (by decide)

/-- C9: with availability found and processed (users registered, the first
target line reporting open days), `main` still returns 0 — identical to the
nothing-to-do exit — even though `EXIT_AVAILABILITY_HANDLED` is defined as
the distinguished code 42; the constant is never returned. -/
theorem mainExitCode_availability_returns_zero :
    mainExitCode 1 0 [("Renovacion", 1768)] (fun _ => Except.ok ["2026-01-05"]) = 0
    ∧ mainExitCode 0 0 [("Renovacion", 1768)] (fun _ => Except.ok []) = 0
    ∧ EXIT_AVAILABILITY_HANDLED = 42
    ∧ mainExitCode 1 0 [("Renovacion", 1768)] (fun _ => Except.ok ["2026-01-05"])
        ≠ EXIT_AVAILABILITY_HANDLED := by
  refine ⟨rfl, rfl, rfl, by decide⟩

/-- The store-based allocator loop writes no cell other than the
`remaining_times` cell. -/
theorem autobookLoopHeap_frame (o : Oracle) (line_id : Int) (day : String) :
    ∀ (us : List User) (h : Heap) (rref i : Nat), i ≠ rref →
      ((autobookLoopHeap o line_id day us h rref).2).cells i = h.cells i := by
  intro us
  induction us with
  | nil => intro h rref i _; rfl
  | cons u rest ih =>
    intro h rref i hi
    rw [autobookLoopHeap]
    by_cases h0 : h.cells rref = []
    · rw [if_pos h0]
    · rw [if_neg h0]
      by_cases he : eligible u = false
      · rw [if_pos he]
        exact ih h rref i hi
      · rw [if_neg he]
        rcases ht : (attemptTimes o line_id day u (h.cells rref)).1 with _ | t
        · simp only [ht]
          exact ih h rref i hi
        · simp only [ht]
          rw [ih (h.removeAt rref t) rref i hi]
          simp [Heap.removeAt, hi]

/-- The store-based loop computes the booked users and the final
`remaining_times` contents of the functional loop. -/
theorem autobookLoopHeap_spec (o : Oracle) (line_id : Int) (day : String) :
    ∀ (us : List User) (h : Heap) (rref : Nat),
      (autobookLoopHeap o line_id day us h rref).1
          = ((autobookLoop o line_id day us (h.cells rref)).1).map Prod.fst
      ∧ ((autobookLoopHeap o line_id day us h rref).2).cells rref
          = (autobookLoop o line_id day us (h.cells rref)).2.1 := by
  intro us
  induction us with
  | nil => intro h rref; exact ⟨rfl, rfl⟩
  | cons u rest ih =>
    intro h rref
    rw [autobookLoopHeap]
    by_cases h0 : h.cells rref = []
    · rw [if_pos h0]
      simp [autobookLoop, h0]
    · rw [if_neg h0]
      by_cases he : eligible u = false
      · rw [if_pos he]
        simp only [autobookLoop, h0, if_false, he, if_true]
        exact ih h rref
      · rw [if_neg he]
        rcases ht : (attemptTimes o line_id day u (h.cells rref)).1 with _ | t
        · simp only [ht, autobookLoop, h0, if_false, he, Bool.true_eq_false]
          exact ih h rref
        · simp only [ht, autobookLoop, h0, if_false, he, Bool.true_eq_false,
            List.map_cons]
          have hcell : (h.removeAt rref t).cells rref = (h.cells rref).erase t := by
            simp [Heap.removeAt]
          have := ih (h.removeAt rref t) rref
          rw [hcell] at this
          exact ⟨congrArg _ this.1, this.2⟩

/-- C10: the caller's `times` list object is unchanged by `autobook_fifo`:
`remaining_times = list(times)` allocates a fresh object, and consumption
(`remaining_times.remove(t)`) mutates only that copy. -/
theorem autobook_fifo_no_mutation (o : Oracle) (line_id : Int) (day : String)
    (h : Heap) (tref : Nat) (users : List User) (htref : tref < h.next) :
    ((autobook_fifo_heap o line_id day h tref users).2).cells tref = h.cells tref := by
  unfold autobook_fifo_heap
  by_cases h0 : h.cells tref = []
  · rw [if_pos h0]
  · rw [if_neg h0]
    by_cases h1 : users = []
    · rw [if_pos h1]
    · rw [if_neg h1]
      have hne : tref ≠ h.next := Nat.ne_of_lt htref
      have hframe := autobookLoopHeap_frame o line_id day users
        (h.allocCopy tref).2 (h.allocCopy tref).1 tref hne
      rw [hframe]
      simp [Heap.allocCopy, hne]

/-- Witness for C10 on a concrete one-cell store. -/
theorem autobook_fifo_no_mutation_witness :
    (0 : Nat) < 1 ∧
    ((autobook_fifo_heap oracleAll 1 "2026-01-05"
        ⟨fun i => if i = 0 then ["09:00", "10:00"] else [], 1⟩ 0 [uAna]).2).cells 0
      = (Heap.mk (fun i => if i = 0 then ["09:00", "10:00"] else []) 1).cells 0 :=
  ⟨Nat.zero_lt_one,
   autobook_fifo_no_mutation oracleAll 1 "2026-01-05"
     ⟨fun i => if i = 0 then ["09:00", "10:00"] else [], 1⟩ 0 [uAna] Nat.zero_lt_one⟩

end Barnechea
